import Mathlib

/-
Verification of mnd_crawler.py against its specification.

The Python source is shallowly embedded: Python strings are modelled as
`List Char`, each helper of the script (normalize_date_to_iso,
apply_manual_gap, crawl_list_page, extract_maincontent_text, run_full's
harvesting loop, run_daily's concat-then-patch merge) becomes an
executable Lean definition mirroring the source line by line.  Fallible
Python code (raising ValueError / returning None) is modelled with
`Option`.  HTML retrieval and parsing are abstracted: a `Site` records,
per listing-page index, the anchors the parser would yield (`none` for a
transport failure after retries), and per article URL the flattened
`div.maincontent` content (`none` for a fetch failure, and an `Html`
value whose `maincontent` field is `none` when the page has no such div).
-/

namespace Mnd

/-! ### Character-level model of the Python string primitives -/

/-- Model of the whitespace class stripped by Python `str.strip()`
(tab, newline, vertical tab, form feed, carriage return, space). -/
def isWsCh (c : Char) : Bool :=
  c.toNat == 9 || c.toNat == 10 || c.toNat == 11 || c.toNat == 12 ||
  c.toNat == 13 || c.toNat == 32

/-- Model of an ASCII decimal digit (`0`-`9`), the digits accepted by
Python `int(...)` and matched by `\d` in the source's date patterns. -/
def isDigitCh (c : Char) : Bool := 48 ≤ c.toNat && c.toNat ≤ 57

/-- Numeric value of a decimal digit string (leading zeros allowed),
as computed by Python `int` on an all-digit string. -/
def decVal (l : List Char) : Nat :=
  l.foldl (fun a c => 10 * a + (c.toNat - 48)) 0

/-- Drop characters satisfying `p` from both ends of the list: the model
of Python `str.strip()` / `str.strip("/")`. -/
def stripEnds (p : Char → Bool) (l : List Char) : List Char :=
  ((l.dropWhile p).reverse.dropWhile p).reverse

/-- Model of Python `str.strip()` with no argument. -/
def pyStrip (l : List Char) : List Char := stripEnds isWsCh l

/-- Model of Python `str.split(t)` for a one-character separator `t`:
`"".split(t) = [""]`, and empty fields between adjacent separators are
kept. -/
def splitChar (t : Char) : List Char → List (List Char)
  | [] => [[]]
  | c :: rest =>
    if c == t then [] :: splitChar t rest
    else
      match splitChar t rest with
      | [] => [[c]]
      | p :: ps => (c :: p) :: ps

/-- Model of `int(s)` on a stripped component: optional sign followed by
a nonempty run of decimal digits; anything else raises `ValueError`
(`none`). -/
def digitsVal (l : List Char) : Option Nat :=
  if !l.isEmpty && l.all isDigitCh then some (decVal l) else none

/-- Model of Python `int(str)`: strips whitespace, then an optional
`+`/`-` sign followed by digits. -/
def pyInt (l : List Char) : Option Int :=
  match pyStrip l with
  | [] => none
  | c :: rest =>
    if c == '+' then (digitsVal rest).map Int.ofNat
    else if c == '-' then (digitsVal rest).map (fun n => -(Int.ofNat n))
    else (digitsVal (c :: rest)).map Int.ofNat

/-! ### Calendar validation (the `datetime(year, month, day)` constructor) -/

/-- Gregorian leap-year test, as used by `datetime`. -/
def pyLeap (y : Int) : Bool := y % 4 == 0 && (y % 100 != 0 || y % 400 == 0)

/-- Number of days in a month, as enforced by `datetime`. -/
def daysInMonth (y m : Int) : Int :=
  if m == 2 then (if pyLeap y then 29 else 28)
  else if m == 4 || m == 6 || m == 9 || m == 11 then 30
  else 31

/-- Validity of a year/month/day triple for Python's
`datetime(year, month, day)` (MINYEAR = 1, MAXYEAR = 9999); an invalid
triple raises `ValueError`. -/
def validDate (y m d : Int) : Bool :=
  decide (1 ≤ y ∧ y ≤ 9999 ∧ 1 ≤ m ∧ m ≤ 12 ∧ 1 ≤ d ∧ d ≤ daysInMonth y m)

/-- Decimal digit character for `n % 10`. -/
def digitCh (n : Nat) : Char := Char.ofNat (48 + n % 10)

/-- Zero-padded two-digit rendering (`%m`, `%d` of `strftime`). -/
def pad2 (n : Nat) : List Char := [digitCh (n / 10), digitCh n]

/-- Zero-padded four-digit rendering (`%Y` of `strftime` for the years in
`datetime`'s range that the script produces). -/
def pad4 (n : Nat) : List Char :=
  [digitCh (n / 1000), digitCh (n / 100), digitCh (n / 10), digitCh n]

/-- Model of `datetime(y, m, d).strftime("%Y-%m-%d")`. -/
def isoStr (y m d : Int) : List Char :=
  pad4 y.toNat ++ '-' :: pad2 m.toNat ++ '-' :: pad2 d.toNat

/-! ### The `%Y-%m-%d` fast path of `normalize_date_to_iso` -/

/-- Month token of CPython's `_strptime` for `%m`: one or two decimal
digits with value 1..12. -/
def monthTok (l : List Char) : Bool :=
  (l.length == 1 || l.length == 2) && l.all isDigitCh &&
  decide (1 ≤ decVal l ∧ decVal l ≤ 12)

/-- Day token of CPython's `_strptime` for `%d`: one or two decimal
digits with value 1..31. -/
def dayTok (l : List Char) : Bool :=
  (l.length == 1 || l.length == 2) && l.all isDigitCh &&
  decide (1 ≤ decVal l ∧ decVal l ≤ 31)

/-- Model of `datetime.strptime(s, "%Y-%m-%d")`: the whole string must be
a four-digit year, a dash, a `%m` token, a dash and a `%d` token, and the
triple must be a real calendar date; otherwise `ValueError` (`none`). -/
def strptimeYMD (l : List Char) : Option (Int × Int × Int) :=
  match splitChar '-' l with
  | [ys, ms, ds] =>
    if ys.length == 4 && ys.all isDigitCh && monthTok ms && dayTok ds then
      let y : Int := decVal ys
      let m : Int := decVal ms
      let d : Int := decVal ds
      if validDate y m d then some (y, m, d) else none
    else none
  | _ => none

/-! ### `normalize_date_to_iso` -/

/-- Characters replaced by `/` in `re.sub(r"[年月日.\-]", "/", s)`. -/
def sepChar (c : Char) : Bool :=
  c == '年' || c == '月' || c == '日' || c == '.' || c == '-'

/-- Model of `re.sub(r"[年月日.\-]", "/", s)`. -/
def sepSub (l : List Char) : List Char :=
  l.map fun c => if sepChar c then '/' else c

/-- Model of `re.sub(r"/+", "/", s)`: collapse each run of slashes to a
single slash. -/
def collapseSlashes : List Char → List Char
  | [] => []
  | [c] => [c]
  | c :: d :: rest =>
    if c == '/' && d == '/' then collapseSlashes (d :: rest)
    else c :: collapseSlashes (d :: rest)

/-- Era adjustment of the source (lines 104-107): a first component below
1911 is read as a Minguo year and shifted by 1911. -/
def eraAdjust (y : Int) : Int := if y < 1911 then y + 1911 else y

/-- Model of `normalize_date_to_iso` (source lines 65-113).  `none` is a
raised `ValueError` (a `DateParseError` in the specification's terms). -/
def normalize_date_to_iso (raw : List Char) : Option (List Char) :=
  let s := pyStrip raw
  if s.isEmpty then none
  else
    match strptimeYMD s with
    | some (y, m, d) => some (isoStr y m d)
    | none =>
      let sClean := stripEnds (fun c => c == '/') (collapseSlashes (sepSub s))
      match splitChar '/' sClean with
      | [p1, p2, p3] =>
        match pyInt (pyStrip p1), pyInt (pyStrip p2), pyInt (pyStrip p3) with
        | some y0, some m0, some d0 =>
          let y := eraAdjust y0
          if validDate y m0 d0 then some (isoStr y m0 d0) else none
        | _, _, _ => none
      | _ => none

/-- Model of `normalize_date_column` (source lines 116-124): normalizes
every entry of the date column; the first `ValueError` propagates and
aborts the whole call. -/
def normalize_date_column (dates : List String) : Option (List String) :=
  dates.mapM fun s => (normalize_date_to_iso s.toList).map (fun l => String.mk l)

/-- The separator characters the specification declares structurally
equivalent: the three punctuation separators and the three
year/month/day characters. -/
def SEPS : List Char := ['.', '/', '-', '年', '月', '日']

/-- Model of Python `raw.replace(c1, c2)` for single characters:
replacing every occurrence of `c1` in the raw date string by `c2`. -/
def replSep (c1 c2 : Char) (l : List Char) : List Char :=
  l.map fun c => if c == c1 then c2 else c

/-! ### The Reconciler: `apply_manual_gap` and the merge of a run -/

/-- Record of the dataset: one row of the DataFrames the script builds,
with the four columns 日期 (date), 標題 (title), 內容 (content), 來源網址
(source url). -/
structure Row where
  date : String
  title : String
  content : String
  url : String
deriving DecidableEq

/-- Lexicographic code-point order on character lists: the order in
which Python (and hence pandas) compares the date strings. -/
def listLe : List Char → List Char → Bool
  | [], _ => true
  | _ :: _, [] => false
  | a :: as, b :: bs =>
    if a.toNat < b.toNat then true
    else if b.toNat < a.toNat then false
    else listLe as bs

/-- Ascending order on the date column, the key of `sort_values("日期")`;
canonical `YYYY-MM-DD` strings sort chronologically under the
lexicographic string order. -/
def rowLe (a b : Row) : Prop := listLe a.date.toList b.date.toList = true

instance : DecidableRel rowLe := fun a b =>
  inferInstanceAs (Decidable (_ = true))

/-- One realization of `df.sort_values("日期").reset_index(drop=True)`:
a stable sort by the date column.  The source (pandas' default
`kind='quicksort'`, which is not stable) guarantees only a date-sorted
permutation of the rows — the relative order of rows with equal dates is
an implementation detail; `SortSpec` below captures exactly that
guarantee, and statements that depend on the tie order are quantified
over every realization satisfying it. -/
def sortByDate (l : List Row) : List Row := l.insertionSort rowLe

/-- Model of `apply_manual_gap` (source lines 296-343).  The first
argument is `base_df`, the second the loaded override rows of
`manual_gap.csv` (`[]` both when the file is absent and when it is
empty, the two cases of line 309).  With overrides present: every base
row whose date occurs among the override dates is dropped
(`~base_df["日期"].isin(gap_dates)`), the overrides are appended
(`pd.concat`), and the result is sorted by date. -/
def apply_manual_gap (base_df gap_df : List Row) : List Row :=
  if gap_df.isEmpty then sortByDate base_df
  else
    let gap_dates := gap_df.map (·.date)
    sortByDate (base_df.filter (fun r => !decide (r.date ∈ gap_dates)) ++ gap_df)

/-- The Reconciler contract `merge(existing, harvested, overrides)` of the
specification, as the runs realize it: `run_daily` concatenates the
existing dataset with the freshly harvested rows
(`pd.concat([df_old, df_new])`, no deduplication) and calls
`apply_manual_gap`; `run_full` does the same with an empty existing
dataset. -/
def merge (existing harvested overrides : List Row) : List Row :=
  apply_manual_gap (existing ++ harvested) overrides

/-- The contract `df.sort_values("日期")` actually guarantees: the output
is a permutation of the rows, sorted by date.  pandas' default
`kind='quicksort'` promises nothing about the relative order of rows
sharing a date. -/
def SortSpec (sort : List Row → List Row) : Prop :=
  ∀ l : List Row, List.Perm (sort l) l ∧ List.Sorted rowLe (sort l)

/-- `apply_manual_gap` with the sort realization left as a parameter:
identical to `apply_manual_gap` except that `sort_values("日期")` is any
function of the caller's choosing (`apply_manual_gap` is this definition
applied to the stable realization `sortByDate`). -/
def apply_manual_gap_with (sort : List Row → List Row)
    (base_df gap_df : List Row) : List Row :=
  if gap_df.isEmpty then sort base_df
  else
    let gap_dates := gap_df.map (·.date)
    sort (base_df.filter (fun r => !decide (r.date ∈ gap_dates)) ++ gap_df)

/-- The Reconciler merge with the sort realization as a parameter. -/
def merge_with (sort : List Row → List Row)
    (existing harvested overrides : List Row) : List Row :=
  apply_manual_gap_with sort (existing ++ harvested) overrides

/-- A sort realization that also satisfies `SortSpec` but orders rows
with equal dates in the reverse of their input order: sorting the
reversed list with the stable sort. -/
def revSort (l : List Row) : List Row := sortByDate l.reverse

/-- Model of `load_manual_gap` (source lines 252-293) for a present,
non-empty file whose rows already carry all four columns: the date column
is normalized to `YYYY-MM-DD`; a single unparseable date raises and
aborts the load (`none`). -/
def load_manual_gap (raw : List Row) : Option (List Row) :=
  raw.mapM fun r =>
    (normalize_date_to_iso r.date.toList).map fun l => { r with date := String.mk l }

/-- Uniqueness-by-date invariant claimed by the specification for every
reconciled dataset. -/
def uniqueByDate (l : List Row) : Prop :=
  l.Pairwise fun a b => a.date ≠ b.date

instance (l : List Row) : Decidable (uniqueByDate l) :=
  inferInstanceAs (Decidable (List.Pairwise (fun a b : Row => a.date ≠ b.date) l))

/-! ### The crawl: listing pages, detail extraction, run_full loop -/

/-- Keyword list of the source (lines 50-59). -/
def KEYWORDS : List String :=
  [ "中共解放軍臺海周邊海、空域動態",
    "中共解放軍軍機",
    "中共解放軍進入我西南空域活動情況",
    "踰越海峽中線及進入我西南空域活動情況",
    "逾越海峽中線及進入我西南空域活動情況",
    "我西南空域空情動態",
    "臺海周邊空域空情動態",
    "偵獲共機、艦在臺海周邊活動情形" ]

def BASE_URL : String := "https://www.mnd.gov.tw"

/-- Does `needle` occur at the start of `hay`?  (List-level model of a
Python string prefix test.) -/
def startsWithL : List Char → List Char → Bool
  | [], _ => true
  | _ :: _, [] => false
  | a :: as, b :: bs => a == b && startsWithL as bs

/-- Model of Python's `needle in hay` substring test. -/
def containsSub : List Char → List Char → Bool
  | n, [] => startsWithL n []
  | n, c :: t => startsWithL n (c :: t) || containsSub n t

/-- Does the list start with the fixed-width pattern
`\d{3}\.\d{2}\.\d{2}` of source line 217? -/
def matchRoc (l : List Char) : Bool :=
  match l with
  | a :: b :: c :: d :: e :: f :: g :: h :: i :: _ =>
    isDigitCh a && isDigitCh b && isDigitCh c && d == '.' &&
    isDigitCh e && isDigitCh f && g == '.' && isDigitCh h && isDigitCh i
  | _ => false

/-- Model of `re.search(r"\d{3}\.\d{2}\.\d{2}", title)`: the leftmost
nine-character match, if any. -/
def findRoc : List Char → Option (List Char)
  | [] => none
  | c :: t => if matchRoc (c :: t) then some ((c :: t).take 9) else findRoc t

/-- Model of `requests.compat.urljoin(BASE_URL, href)` for the href
shapes the site uses: an absolute `http(s)` URL is kept, a root-relative
path is attached to the base. -/
def urljoin (base href : String) : String :=
  if startsWithL "http".toList href.toList then href
  else if startsWithL "/".toList href.toList then base ++ href
  else base ++ "/" ++ href

/-- An anchor element (`<a href=...>text</a>`) of a parsed listing page,
carrying the whitespace-stripped visible text the code reads with
`a.get_text(strip=True)` and the href. -/
structure Anchor where
  text : String
  href : String
deriving DecidableEq

/-- A listing entry produced by `crawl_list_page`. -/
structure Entry where
  roc_date : List Char
  url : String
  title : String
deriving DecidableEq

/-- Abstract model of a fetched detail page: the crawler inspects only
whether a `div.maincontent` exists and, if so, its stripped strings. -/
structure Html where
  maincontent : Option (List String)

/-- Abstract model of the remote site as the fetch layer exposes it:
`listPage p = none` models `safe_get` returning `None` for listing page
`p` (transport failure after all retries), otherwise the anchors of the
parsed page; `article u` likewise models fetching the detail page at
`u`. -/
structure Site where
  listPage : Nat → Option (List Anchor)
  article : String → Option Html

/-- Model of `extract_maincontent_text` (source lines 232-238): without a
`div.maincontent` the result is the empty string, otherwise the stripped
strings joined by single spaces. -/
def extract_maincontent_text (h : Html) : String :=
  match h.maincontent with
  | none => ""
  | some strs => String.intercalate " " strs

/-- Model of `crawl_article` (source lines 241-246): a failed fetch
yields the empty string. -/
def crawl_article (site : Site) (url : String) : String :=
  match site.article url with
  | none => ""
  | some h => extract_maincontent_text h

/-- Model of `crawl_list_page` (source lines 186-226): a failed fetch is
treated as no data (`[]`); otherwise anchors are kept when their text is
non-empty, contains one of the `KEYWORDS`, and contains a
`\d{3}\.\d{2}\.\d{2}` date token, and their href is resolved against
`BASE_URL`. -/
def crawl_list_page (site : Site) (page : Nat) : List Entry :=
  match site.listPage page with
  | none => []
  | some anchors =>
    anchors.filterMap fun a =>
      if a.text.isEmpty then none
      else if !(KEYWORDS.any fun kw => containsSub kw.toList a.text.toList) then none
      else
        match findRoc a.text.toList with
        | none => none
        | some roc => some ⟨roc, urljoin BASE_URL a.href, a.text⟩

/-- State of the `run_full` while-loop: accumulated rows, seen urls, the
current page index, the `consecutive_no_new` counter, and the trace of
listing pages requested so far. -/
structure FullState where
  rows : List Row
  seen : List String
  page : Nat
  streak : Nat
  requested : List Nat
deriving DecidableEq

/-- Model of the per-entry body of the `run_full` loop (source lines
378-394): record the url as seen, fetch the article body, convert the
Minguo date `DDD.DD.DD` to ISO via `roc_date.replace(".", "/")` and
`normalize_date_to_iso` — an unparseable date raises through `run_full`
and aborts the whole run (`none`) — and append the four-column row. -/
def processEntries (site : Site) :
    List Entry → List Row → List String → Option (List Row × List String)
  | [], rows, seen => some (rows, seen)
  | e :: rest, rows, seen =>
    let seen1 := e.url :: seen
    let content := crawl_article site e.url
    match normalize_date_to_iso (e.roc_date.map fun c => if c == '.' then '/' else c) with
    | none => none
    | some iso =>
      processEntries site rest
        (rows ++ [⟨String.mk iso, e.title, content, e.url⟩]) seen1

/-- Model of the `run_full` while-loop (source lines 357-403).  Each
iteration requests one listing page; a page with no keyword-matching
entries breaks immediately; a page with entries but no unseen url
increments `consecutive_no_new` and two consecutive such pages break;
otherwise the counter resets and the new entries are processed; the page
index then advances, with a hard stop above page 1000.  The fuel
argument only bounds the recursion and never expires before the page
ceiling when the loop is started by `run_full_harvest`. -/
def runFullLoop (site : Site) : Nat → FullState → Option FullState
  | 0, st => some st
  | fuel + 1, st =>
    let entries := crawl_list_page site st.page
    let st1 : FullState := { st with requested := st.requested ++ [st.page] }
    if entries.isEmpty then some st1
    else
      let newEntries := entries.filter fun e => !st1.seen.contains e.url
      if newEntries.isEmpty then
        if st1.streak + 1 ≥ 2 then some { st1 with streak := st1.streak + 1 }
        else
          let st2 := { st1 with streak := st1.streak + 1, page := st1.page + 1 }
          if st2.page > 1000 then some st2 else runFullLoop site fuel st2
      else
        match processEntries site newEntries st1.rows st1.seen with
        | none => none
        | some (rows2, seen2) =>
          let st2 := { st1 with streak := 0, rows := rows2, seen := seen2,
                                page := st1.page + 1 }
          if st2.page > 1000 then some st2 else runFullLoop site fuel st2

/-- Initial state of `run_full`: no rows, no seen urls, page 1, zero
streak. -/
def initState : FullState := ⟨[], [], 1, 0, []⟩

/-- The harvesting phase of `run_full`: the loop run from page 1 with
enough fuel for the 1000-page ceiling. -/
def run_full_harvest (site : Site) : Option FullState :=
  runFullLoop site 1001 initState

/-- Descending order on the date of an output pair, the key of the final
`sort_values("日期", ascending=False)`. -/
def pairGe (a b : String × String) : Prop := listLe b.1.toList a.1.toList = true

instance : DecidableRel pairGe := fun a b =>
  inferInstanceAs (Decidable (_ = true))

/-- Model of the tail of `run_full` (source lines 405-425) given the
already-loaded override rows: an empty harvest writes an empty
two-column CSV and never applies the overrides; otherwise
`apply_manual_gap` runs, the 日期/內容 columns are kept (內容 renamed
公告內容) and the rows are sorted newest-first. -/
def run_full (site : Site) (gap : List Row) : Option (List (String × String)) :=
  (run_full_harvest site).map fun st =>
    if st.rows.isEmpty then []
    else
      let df := apply_manual_gap st.rows gap
      (df.map fun r => (r.date, r.content)).insertionSort pairGe

/-! ### Concrete data used to exercise the model -/

/-- A listing anchor whose text carries a keyword and the Minguo date
114.12.01. -/
def anchorX : Anchor := ⟨"114.12.01中共解放軍軍機", "http://x/a1"⟩

/-- A second matching anchor with a different url and date. -/
def anchorZ : Anchor := ⟨"114.12.02中共解放軍軍機", "http://x/a2"⟩

/-- A matching anchor whose Minguo date 114.02.30 is not a real calendar
date. -/
def anchorBad : Anchor := ⟨"114.02.30中共解放軍軍機", "http://x/bad"⟩

/-- Site whose first listing page is reachable but has zero
keyword-matching entries, while page 2 has a matching entry. -/
def siteA : Site :=
  { listPage := fun p => if p == 1 then some [] else some [anchorX]
    article := fun _ => none }

/-- Site that repeats the same single entry on pages 1..3 (the repeated
last page of the real site) and would offer a fresh entry on page 4. -/
def siteB : Site :=
  { listPage := fun p =>
      if p ≤ 3 then some [anchorX] else if p == 4 then some [anchorZ] else some []
    article := fun _ => none }

/-- Site where page 2 repeats page 1 (one no-new-url page) but page 3
carries a fresh entry, and page 4 is empty. -/
def siteC : Site :=
  { listPage := fun p =>
      if p ≤ 2 then some [anchorX]
      else if p == 3 then some [anchorX, anchorZ]
      else some []
    article := fun _ => none }

/-- Site with one matching entry whose detail page is fetched but has no
`div.maincontent`. -/
def site5 : Site :=
  { listPage := fun p => if p == 1 then some [anchorX] else some []
    article := fun _ => some ⟨none⟩ }

/-- Site whose first listing page fails at the transport level (after
all retries) while page 2 would have data. -/
def site6 : Site :=
  { listPage := fun p => if p == 1 then none else some [anchorX]
    article := fun _ => none }

/-- Site whose single entry carries the unparseable Minguo date
114.02.30. -/
def site7 : Site :=
  { listPage := fun p => if p == 1 then some [anchorBad] else some []
    article := fun _ => none }

/-- Two harvested rows sharing one date. -/
def rDup1 : Row := ⟨"2024-01-01", "t1", "A", "u1"⟩

def rDup2 : Row := ⟨"2024-01-01", "t2", "B", "u2"⟩

/-- The rows of the specification's merge scenario. -/
def rowA : Row := ⟨"2024-01-01", "", "A", ""⟩

def rowB : Row := ⟨"2024-01-01", "", "B", ""⟩

def rowC : Row := ⟨"2024-01-02", "", "C", ""⟩

def rowD : Row := ⟨"2024-01-02", "", "D", ""⟩

/-- An override row used to show overrides being dropped by an
empty-harvest run. -/
def gapD : Row := ⟨"2024-01-02", "補", "D", ""⟩

/-- An override row whose date does not parse. -/
def gapBad : Row := ⟨"114/13/01", "補", "x", ""⟩

/-! ### Order facts for the sort model -/

theorem listLe_total : ∀ a b : List Char, listLe a b = true ∨ listLe b a = true
  | [], _ => Or.inl rfl
  | _ :: _, [] => Or.inr rfl
  | a :: as, b :: bs => by
    unfold listLe
    rcases Nat.lt_trichotomy a.toNat b.toNat with h | h | h
    · left; simp [h]
    · have h1 : ¬ a.toNat < b.toNat := by omega
      have h2 : ¬ b.toNat < a.toNat := by omega
      simpa [h1, h2] using listLe_total as bs
    · right; simp [h]

theorem listLe_trans : ∀ a b c : List Char,
    listLe a b = true → listLe b c = true → listLe a c = true
  | [], _, _, _, _ => rfl
  | _ :: _, [], _, h, _ => by cases h
  | _ :: _, _ :: _, [], _, h => by cases h
  | a :: as, b :: bs, c :: cs, h1, h2 => by
    unfold listLe at h1 h2 ⊢
    by_cases hab : a.toNat < b.toNat
    · by_cases hbc : b.toNat < c.toNat
      · simp [show a.toNat < c.toNat by omega]
      · by_cases hcb : c.toNat < b.toNat
        · rw [if_neg hbc, if_pos hcb] at h2; cases h2
        · simp [show a.toNat < c.toNat by omega]
    · by_cases hba : b.toNat < a.toNat
      · rw [if_neg hab, if_pos hba] at h1; cases h1
      · by_cases hbc : b.toNat < c.toNat
        · simp [show a.toNat < c.toNat by omega]
        · by_cases hcb : c.toNat < b.toNat
          · rw [if_neg hbc, if_pos hcb] at h2; cases h2
          · rw [if_neg hab, if_neg hba] at h1
            rw [if_neg hbc, if_neg hcb] at h2
            rw [if_neg (show ¬ a.toNat < c.toNat by omega),
                if_neg (show ¬ c.toNat < a.toNat by omega)]
            exact listLe_trans as bs cs h1 h2

instance : IsTotal Row rowLe :=
  ⟨fun a b => listLe_total a.date.toList b.date.toList⟩

instance : IsTrans Row rowLe :=
  ⟨fun _ _ _ h h' => listLe_trans _ _ _ h h'⟩

/-! ### String lemmas for the date normalizer -/

theorem dropWhile_eq_self_of (p : Char → Bool) (l : List Char)
    (h : ∀ c ∈ l, p c = false) : l.dropWhile p = l := by
  cases l with
  | nil => rfl
  | cons c t => simp [List.dropWhile_cons, h c (List.mem_cons_self c t)]

theorem stripEnds_eq_self (p : Char → Bool) (l : List Char)
    (h : ∀ c ∈ l, p c = false) : stripEnds p l = l := by
  unfold stripEnds
  rw [dropWhile_eq_self_of p l h,
      dropWhile_eq_self_of p l.reverse (fun c hc => h c (List.mem_reverse.mp hc)),
      List.reverse_reverse]

theorem dropWhile_eq_self_of_head (p : Char → Bool) (l : List Char)
    (h : ∀ c ∈ l.head?, p c = false) : l.dropWhile p = l := by
  cases l with
  | nil => rfl
  | cons c t => simp [List.dropWhile_cons, h c (by simp)]

theorem stripEnds_eq_self_of_ends (p : Char → Bool) (l : List Char)
    (h1 : ∀ c ∈ l.head?, p c = false)
    (h2 : ∀ c ∈ l.reverse.head?, p c = false) : stripEnds p l = l := by
  unfold stripEnds
  rw [dropWhile_eq_self_of_head p l h1, dropWhile_eq_self_of_head p l.reverse h2,
      List.reverse_reverse]

theorem splitChar_of_no_sep (t : Char) (l : List Char)
    (h : ∀ c ∈ l, (c == t) = false) : splitChar t l = [l] := by
  induction l with
  | nil => rfl
  | cons c r ih =>
    have hc := h c (List.mem_cons_self c r)
    have ih' := ih fun x hx => h x (List.mem_cons_of_mem c hx)
    simp [splitChar, hc, ih']

theorem splitChar_append (t : Char) (a rest : List Char)
    (h : ∀ c ∈ a, (c == t) = false) :
    splitChar t (a ++ t :: rest) = a :: splitChar t rest := by
  induction a with
  | nil => simp [splitChar]
  | cons c a' ih =>
    have hc := h c (List.mem_cons_self c a')
    have ih' := ih fun x hx => h x (List.mem_cons_of_mem c hx)
    simp [splitChar, hc, ih']

theorem collapse_cons_of (c : Char) (l : List Char) (h : (c == '/') = false) :
    collapseSlashes (c :: l) = c :: collapseSlashes l := by
  cases l with
  | nil => rfl
  | cons d r => simp [collapseSlashes, h]

theorem collapse_cons_cons (c d : Char) (r : List Char)
    (h : (c == '/' && d == '/') = false) :
    collapseSlashes (c :: d :: r) = c :: collapseSlashes (d :: r) := by
  simp [collapseSlashes, h]

theorem collapse_append_of (a l : List Char)
    (h : ∀ c ∈ a, (c == '/') = false) :
    collapseSlashes (a ++ l) = a ++ collapseSlashes l := by
  induction a with
  | nil => rfl
  | cons c a' ih =>
    rw [List.cons_append, collapse_cons_of c _ (h c (List.mem_cons_self c a')),
        ih (fun x hx => h x (List.mem_cons_of_mem c hx)), List.cons_append]

theorem collapse_of_no_slash (l : List Char)
    (h : ∀ c ∈ l, (c == '/') = false) : collapseSlashes l = l := by
  have h0 := collapse_append_of l [] h
  simpa [collapseSlashes] using h0

theorem digit_beq_false {c d : Char} (hc : isDigitCh c = true)
    (hd : isDigitCh d = false) : (c == d) = false := by
  cases h : c == d with
  | false => rfl
  | true =>
    have hcd : c = d := beq_iff_eq.mp h
    subst hcd
    rw [hc] at hd
    cases hd

theorem digit_not_ws {c : Char} (h : isDigitCh c = true) : isWsCh c = false := by
  unfold isDigitCh at h
  unfold isWsCh
  simp only [Bool.and_eq_true, decide_eq_true_eq] at h
  simp only [Bool.or_eq_false_iff, beq_eq_false_iff_ne, ne_eq]
  omega

theorem digit_not_sep {c : Char} (h : isDigitCh c = true) : sepChar c = false := by
  unfold sepChar
  rw [digit_beq_false h (by decide), digit_beq_false h (by decide),
      digit_beq_false h (by decide), digit_beq_false h (by decide),
      digit_beq_false h (by decide)]
  rfl

theorem digit_ne_slash {c : Char} (h : isDigitCh c = true) : (c == '/') = false :=
  digit_beq_false h (by decide)

theorem digit_ne_dash {c : Char} (h : isDigitCh c = true) : (c == '-') = false :=
  digit_beq_false h (by decide)

theorem sepSub_eq_self (l : List Char) (h : ∀ c ∈ l, sepChar c = false) :
    sepSub l = l := by
  induction l with
  | nil => rfl
  | cons c t ih =>
    have hc := h c (List.mem_cons_self c t)
    have ih' := ih fun x hx => h x (List.mem_cons_of_mem c hx)
    simp [sepSub, hc] at ih' ⊢
    exact ih'

theorem strptime_no_dash (l : List Char)
    (h : ∀ c ∈ l, (c == '-') = false) : strptimeYMD l = none := by
  simp [strptimeYMD, splitChar_of_no_sep '-' l h]

theorem pyInt_digits (l : List Char) (h0 : l ≠ [])
    (h : ∀ c ∈ l, isDigitCh c = true) :
    pyInt l = some (Int.ofNat (decVal l)) := by
  obtain ⟨c, t, rfl⟩ := List.exists_cons_of_ne_nil h0
  have hps : pyStrip (c :: t) = c :: t :=
    stripEnds_eq_self _ _ fun x hx => digit_not_ws (h x hx)
  have hc := h c (List.mem_cons_self c t)
  have hall : (c :: t).all isDigitCh = true := List.all_eq_true.mpr h
  simp only [pyInt, hps, digit_beq_false hc (show isDigitCh '+' = false by decide),
    digit_beq_false hc (show isDigitCh '-' = false by decide), Bool.false_eq_true,
    if_false, digitsVal, hall]
  simp

theorem collapse_two_fields (ms ds : List Char) (hm : ms ≠ []) (hd : ds ≠ [])
    (hms : ∀ c ∈ ms, (c == '/') = false)
    (hds : ∀ c ∈ ds, (c == '/') = false) :
    collapseSlashes ('/' :: (ms ++ '/' :: ds)) = '/' :: (ms ++ '/' :: ds) := by
  obtain ⟨m1, ms', rfl⟩ := List.exists_cons_of_ne_nil hm
  rw [show ((m1 :: ms') ++ '/' :: ds : List Char) = m1 :: (ms' ++ '/' :: ds)
      from rfl]
  rw [collapse_cons_cons '/' m1 _
      (by rw [hms m1 (List.mem_cons_self m1 ms')]; simp)]
  rw [show (m1 :: (ms' ++ '/' :: ds) : List Char) = (m1 :: ms') ++ '/' :: ds
      from rfl]
  rw [collapse_append_of _ _ hms]
  obtain ⟨d1, ds', rfl⟩ := List.exists_cons_of_ne_nil hd
  rw [collapse_cons_cons '/' d1 _
      (by rw [hds d1 (List.mem_cons_self d1 ds')]; simp)]
  rw [collapse_of_no_slash _ hds]

theorem strip_slash_form (ys ms ds : List Char) (hy : ys ≠ []) (hd : ds ≠ [])
    (hy2 : ∀ c ∈ ys, isDigitCh c = true)
    (hd2 : ∀ c ∈ ds, isDigitCh c = true) :
    stripEnds (fun c => c == '/') (ys ++ '/' :: (ms ++ '/' :: ds)) =
      ys ++ '/' :: (ms ++ '/' :: ds) := by
  apply stripEnds_eq_self_of_ends
  · intro c hc
    obtain ⟨y1, ys', rfl⟩ := List.exists_cons_of_ne_nil hy
    have hcy : y1 = c := by simpa using hc
    subst hcy
    exact digit_ne_slash (hy2 y1 (List.mem_cons_self y1 ys'))
  · intro c hc
    have hassoc : ys ++ '/' :: (ms ++ '/' :: ds) = (ys ++ '/' :: (ms ++ ['/'])) ++ ds := by
      simp
    rw [hassoc, List.reverse_append] at hc
    obtain ⟨dn, t, hds⟩ :=
      List.exists_cons_of_ne_nil (show ds.reverse ≠ [] by simpa using hd)
    rw [hds] at hc
    have hcd : dn = c := by simpa using hc
    subst hcd
    have hmem : dn ∈ ds := by
      have h1 : dn ∈ ds.reverse := by rw [hds]; exact List.mem_cons_self dn t
      simpa using h1
    exact digit_ne_slash (hd2 dn hmem)

/-- Behavior of `normalize_date_to_iso` on a slash-separated string of
three non-empty all-digit components: the first component below 1911 is
era-adjusted, the triple is validated by `datetime`, and a valid triple
is rendered `YYYY-MM-DD` while an invalid one raises. -/
theorem normalize_slash_form (ys ms ds : List Char)
    (hy : ys ≠ []) (hm : ms ≠ []) (hd : ds ≠ [])
    (hy2 : ∀ c ∈ ys, isDigitCh c = true)
    (hm2 : ∀ c ∈ ms, isDigitCh c = true)
    (hd2 : ∀ c ∈ ds, isDigitCh c = true) :
    normalize_date_to_iso (ys ++ '/' :: (ms ++ '/' :: ds)) =
      (if validDate (eraAdjust (Int.ofNat (decVal ys))) (Int.ofNat (decVal ms))
          (Int.ofNat (decVal ds)) then
        some (isoStr (eraAdjust (Int.ofNat (decVal ys))) (Int.ofNat (decVal ms))
          (Int.ofNat (decVal ds)))
      else none) := by
  have hyslash : ∀ c ∈ ys, (c == '/') = false :=
    fun c hc => digit_ne_slash (hy2 c hc)
  have hmslash : ∀ c ∈ ms, (c == '/') = false :=
    fun c hc => digit_ne_slash (hm2 c hc)
  have hdslash : ∀ c ∈ ds, (c == '/') = false :=
    fun c hc => digit_ne_slash (hd2 c hc)
  have hmem : ∀ c ∈ ys ++ '/' :: (ms ++ '/' :: ds), isDigitCh c = true ∨ c = '/' := by
    intro c hc
    rcases List.mem_append.mp hc with h | h
    · exact Or.inl (hy2 c h)
    · rcases List.mem_cons.mp h with rfl | h
      · exact Or.inr rfl
      · rcases List.mem_append.mp h with h | h
        · exact Or.inl (hm2 c h)
        · rcases List.mem_cons.mp h with rfl | h
          · exact Or.inr rfl
          · exact Or.inl (hd2 c h)
  have hnws : ∀ c ∈ ys ++ '/' :: (ms ++ '/' :: ds), isWsCh c = false := by
    intro c hc
    rcases hmem c hc with h | rfl
    · exact digit_not_ws h
    · decide
  have hstrip : pyStrip (ys ++ '/' :: (ms ++ '/' :: ds)) =
      ys ++ '/' :: (ms ++ '/' :: ds) := stripEnds_eq_self _ _ hnws
  have hne : (ys ++ '/' :: (ms ++ '/' :: ds)).isEmpty = false := by
    obtain ⟨y1, ys', rfl⟩ := List.exists_cons_of_ne_nil hy
    rfl
  have hfast : strptimeYMD (ys ++ '/' :: (ms ++ '/' :: ds)) = none := by
    apply strptime_no_dash
    intro c hc
    rcases hmem c hc with h | rfl
    · exact digit_ne_dash h
    · decide
  have hsep : sepSub (ys ++ '/' :: (ms ++ '/' :: ds)) = ys ++ '/' :: (ms ++ '/' :: ds) := by
    apply sepSub_eq_self
    intro c hc
    rcases hmem c hc with h | rfl
    · exact digit_not_sep h
    · decide
  have hcol : collapseSlashes (ys ++ '/' :: (ms ++ '/' :: ds)) =
      ys ++ '/' :: (ms ++ '/' :: ds) := by
    rw [collapse_append_of ys _ hyslash,
        collapse_two_fields ms ds hm hd hmslash hdslash]
  have hstrips : stripEnds (fun c => c == '/') (ys ++ '/' :: (ms ++ '/' :: ds)) =
      ys ++ '/' :: (ms ++ '/' :: ds) := strip_slash_form ys ms ds hy hd hy2 hd2
  have hsplit : splitChar '/' (ys ++ '/' :: (ms ++ '/' :: ds)) = [ys, ms, ds] := by
    rw [splitChar_append '/' ys _ hyslash, splitChar_append '/' ms _ hmslash,
        splitChar_of_no_sep '/' ds hdslash]
  have hpsy : pyStrip ys = ys :=
    stripEnds_eq_self _ _ fun c hc => digit_not_ws (hy2 c hc)
  have hpsm : pyStrip ms = ms :=
    stripEnds_eq_self _ _ fun c hc => digit_not_ws (hm2 c hc)
  have hpsd : pyStrip ds = ds :=
    stripEnds_eq_self _ _ fun c hc => digit_not_ws (hd2 c hc)
  have hpy := pyInt_digits ys hy hy2
  have hpm := pyInt_digits ms hm hm2
  have hpd := pyInt_digits ds hd hd2
  simp only [normalize_date_to_iso, hstrip, hne, Bool.false_eq_true, if_false,
    hfast, hsep, hcol, hstrips, hsplit, hpsy, hpsm, hpsd, hpy, hpm, hpd]

/-! ### Claims C1, C2, C4, C10: the Reconciler -/

/-- Claim C1, counterexample: the merge of an empty existing dataset, a
harvested batch holding two records that share the date 2024-01-01, and
no overrides keeps both records, so the produced dataset is not unique
by date — `apply_manual_gap` deduplicates nothing apart from removing
base rows at override dates. -/
theorem C1_counterexample : ¬ uniqueByDate (merge [] [rDup1, rDup2] []) := by
  decide

/-- Claim C1, amended: a dataset produced by the merge is unique by date
provided the concatenated existing-plus-harvested input and the override
list are each already unique by date; the merge itself guarantees only
that no surviving crawled row shares a date with an override row. -/
theorem C1_theorem (E H O : List Row)
    (h1 : uniqueByDate (E ++ H)) (h2 : uniqueByDate O) :
    uniqueByDate (merge E H O) := by
  have hsym : ∀ {x y : Row}, x.date ≠ y.date → y.date ≠ x.date :=
    fun h => Ne.symm h
  simp only [merge, apply_manual_gap, sortByDate, uniqueByDate] at h1 h2 ⊢
  by_cases hO : O.isEmpty = true
  · rw [if_pos hO]
    exact ((List.perm_insertionSort rowLe _).pairwise_iff hsym).mpr h1
  · rw [if_neg hO]
    refine ((List.perm_insertionSort rowLe _).pairwise_iff hsym).mpr ?_
    rw [List.pairwise_append]
    refine ⟨h1.filter _, h2, ?_⟩
    intro a ha b hb
    have hpa := (List.mem_filter.mp ha).2
    simp only [Bool.not_eq_true', decide_eq_false_iff_not] at hpa
    intro hEq
    exact hpa (hEq ▸ List.mem_map_of_mem (·.date) hb)

/-- Witness for C1: the amended statement applied to concrete unique
inputs. -/
theorem C1_witness : uniqueByDate (merge [rowA] [rowC] [gapD]) :=
  C1_theorem [rowA] [rowC] [gapD] (by decide) (by decide)

/-- Claim C2, counterexample: a completed full run whose harvest is
empty (its first listing page is reachable but has zero matching
entries) writes an empty dataset without ever applying the overrides,
so the override record for 2024-01-02 is absent from the produced
dataset. -/
theorem C2_counterexample :
    gapD.date = "2024-01-02" ∧ run_full siteA [gapD] = some [] := by
  exact ⟨rfl, by decide⟩

/-- Claim C2, amended: whenever the merge is invoked (every completed
run except a full run with an empty harvest) and the overrides hold
exactly one record for date `d`, the records with date `d` of the merged
dataset are exactly that override record, whatever existing or harvested
rows carried date `d`. -/
theorem C2_theorem (E H O : List Row) (d : String) (r : Row)
    (h : O.filter (fun x => decide (x.date = d)) = [r]) :
    (merge E H O).filter (fun x => decide (x.date = d)) = [r] := by
  have hrf : r ∈ O.filter (fun x => decide (x.date = d)) := by
    rw [h]; exact List.mem_singleton.mpr rfl
  have hrO : r ∈ O := (List.mem_filter.mp hrf).1
  have hrd : r.date = d := of_decide_eq_true (List.mem_filter.mp hrf).2
  have hOne : ¬ O.isEmpty = true := by
    rcases O with _ | ⟨x, t⟩
    · rw [List.filter_nil] at h; cases h
    · simp [List.isEmpty]
  simp only [merge, apply_manual_gap, sortByDate]
  rw [if_neg hOne]
  set kept := (E ++ H).filter (fun rr => !decide (rr.date ∈ O.map (·.date)))
    with hkeptdef
  have hkept : kept.filter (fun x => decide (x.date = d)) = [] := by
    rw [hkeptdef, List.filter_eq_nil_iff]
    intro a ha hpa
    have h2 := (List.mem_filter.mp ha).2
    have had : a.date = d := of_decide_eq_true hpa
    have hmem : a.date ∈ O.map (·.date) := by
      rw [had, ← hrd]; exact List.mem_map_of_mem (·.date) hrO
    simp [hmem] at h2
  refine List.perm_singleton.mp ?_
  refine ((List.perm_insertionSort rowLe _).filter _).trans ?_
  rw [List.filter_append, hkept, List.nil_append, h]

/-- Witness for C2: the amended statement at a concrete merge where both
an existing and a harvested row carried the override's date. -/
theorem C2_witness :
    (merge [rowC] [rowD] [gapD]).filter (fun x => decide (x.date = "2024-01-02")) =
      [gapD] :=
  C2_theorem [rowC] [rowD] [gapD] "2024-01-02" gapD (by decide)

/-- Claim C4, counterexample: with existing {2024-01-01: A}, harvested
{2024-01-01: B, 2024-01-02: C} and overrides {2024-01-02: D}, the merge
yields the three rows A, B, D — both same-date rows survive, so the
result is not the claimed {2024-01-01: B, 2024-01-02: D}: there is no
last-writer-wins deduplication between existing and harvested. -/
theorem C4_counterexample :
    (merge [rowA] [rowB, rowC] [rowD]).map (fun r => (r.date, r.content)) =
      [("2024-01-01", "A"), ("2024-01-01", "B"), ("2024-01-02", "D")] ∧
    (merge [rowA] [rowB, rowC] [rowD]).map (fun r => (r.date, r.content)) ≠
      [("2024-01-01", "B"), ("2024-01-02", "D")] := by
  exact ⟨by decide, by decide⟩

/-- Claim C4, amended: the merge concatenates existing and harvested
with no deduplication between them — every existing record whose date is
not an override date survives, even when a harvested record carries the
same date — removes the rows at override dates, appends the overrides
and sorts by date; the specification's scenario therefore yields
{2024-01-01: A, 2024-01-01: B, 2024-01-02: D}. -/
theorem C4_theorem :
    (∀ (E H O : List Row) (r : Row),
      r ∈ E → r.date ∉ O.map (·.date) → r ∈ merge E H O) ∧
    (merge [rowA] [rowB, rowC] [rowD]).map (fun r => (r.date, r.content)) =
      [("2024-01-01", "A"), ("2024-01-01", "B"), ("2024-01-02", "D")] := by
  constructor
  · intro E H O r hrE hrd
    simp only [merge, apply_manual_gap, sortByDate]
    by_cases hO : O.isEmpty = true
    · rw [if_pos hO]
      exact ((List.perm_insertionSort rowLe _).mem_iff).mpr
        (List.mem_append_left _ hrE)
    · rw [if_neg hO]
      refine ((List.perm_insertionSort rowLe _).mem_iff).mpr ?_
      refine List.mem_append_left _ ?_
      rw [List.mem_filter]
      exact ⟨List.mem_append_left _ hrE, by simp [hrd]⟩
  · decide

/-- Witness for C4: the general survival statement applied to the
scenario's existing row A, whose date 2024-01-01 is also carried by the
harvested row B. -/
theorem C4_witness : rowA ∈ merge [rowA] [rowB, rowC] [rowD] :=
  C4_theorem.1 [rowA] [rowB, rowC] [rowD] rowA (by decide) (by decide)

theorem sortSpec_sortByDate : SortSpec sortByDate := fun l =>
  ⟨List.perm_insertionSort rowLe l, List.sorted_insertionSort rowLe l⟩

theorem sortSpec_revSort : SortSpec revSort := fun l =>
  ⟨(List.perm_insertionSort rowLe l.reverse).trans (List.reverse_perm l),
   List.sorted_insertionSort rowLe l.reverse⟩

theorem merge_with_nil (sort : List Row → List Row) (X : List Row) :
    merge_with sort X [] [] = sort X := by
  show apply_manual_gap_with sort (X ++ []) [] = sort X
  rw [List.append_nil]
  rfl

/-- Injectivity of the code point of a character. -/
theorem charToNat_inj {a b : Char} (h : a.toNat = b.toNat) : a = b := by
  rw [← Char.ofNat_toNat a, ← Char.ofNat_toNat b, h]

theorem listLe_antisymm : ∀ a b : List Char,
    listLe a b = true → listLe b a = true → a = b
  | [], [], _, _ => rfl
  | [], _ :: _, _, h => by cases h
  | _ :: _, [], h, _ => by cases h
  | a :: as, b :: bs, h1, h2 => by
    unfold listLe at h1 h2
    by_cases hab : a.toNat < b.toNat
    · rw [if_neg (show ¬ b.toNat < a.toNat by omega), if_pos hab] at h2
      cases h2
    · by_cases hba : b.toNat < a.toNat
      · rw [if_neg hab, if_pos hba] at h1
        cases h1
      · rw [if_neg hab, if_neg hba] at h1
        rw [if_neg hba, if_neg hab] at h2
        have hc : a = b := charToNat_inj (by omega)
        rw [hc, listLe_antisymm as bs h1 h2]

/-- Antisymmetry of the row order on the dates: two rows below each
other share their date. -/
theorem rowLe_antisymm {a b : Row} (h1 : rowLe a b) (h2 : rowLe b a) :
    a.date = b.date := by
  have h := listLe_antisymm a.date.toList b.date.toList h1 h2
  have h' : a.date.toList.asString = b.date.toList.asString := by rw [h]
  rwa [String.asString_toList, String.asString_toList] at h'

/-- A sorted permutation of a sorted, unique-by-date list is that list:
the one fact about re-sorting that does not depend on the tie order. -/
theorem eq_of_perm_sorted_unique : ∀ {l₁ l₂ : List Row}, List.Perm l₁ l₂ →
    List.Sorted rowLe l₁ → List.Sorted rowLe l₂ → uniqueByDate l₂ → l₁ = l₂ := by
  intro l₁
  induction l₁ with
  | nil =>
    intro l₂ hp _ _ _
    exact (List.Perm.eq_nil hp.symm).symm
  | cons a t ih =>
    intro l₂ hp hs1 hs2 hu
    cases l₂ with
    | nil => exact absurd (List.Perm.eq_nil hp) (List.cons_ne_nil a t)
    | cons b t₂ =>
      have hab : a = b := by
        rcases List.mem_cons.mp (hp.mem_iff.mp (List.mem_cons_self a t)) with h | haT
        · exact h
        · exfalso
          have hba : rowLe b a := (List.sorted_cons.mp hs2).1 a haT
          have hadate : a.date = b.date := by
            rcases List.mem_cons.mp (hp.mem_iff.mpr (List.mem_cons_self b t₂)) with
              h' | hbT
            · rw [h']
            · exact rowLe_antisymm ((List.sorted_cons.mp hs1).1 b hbT) hba
          exact (List.pairwise_cons.mp hu).1 a haT hadate.symm
      subst hab
      rw [ih hp.cons_inv (List.sorted_cons.mp hs1).2 (List.sorted_cons.mp hs2).2
        (List.pairwise_cons.mp hu).2]

/-- Uniqueness of the merged dataset under unique inputs, for every sort
realization allowed by the source. -/
theorem uniqueByDate_merge_with (sort : List Row → List Row) (hs : SortSpec sort)
    (E H O : List Row) (h1 : uniqueByDate (E ++ H)) (h2 : uniqueByDate O) :
    uniqueByDate (merge_with sort E H O) := by
  have hsym : ∀ {x y : Row}, x.date ≠ y.date → y.date ≠ x.date :=
    fun h => Ne.symm h
  simp only [merge_with, apply_manual_gap_with, uniqueByDate] at h1 h2 ⊢
  by_cases hO : O.isEmpty = true
  · rw [if_pos hO]
    exact (((hs (E ++ H)).1).pairwise_iff hsym).mpr h1
  · rw [if_neg hO]
    refine (((hs _).1).pairwise_iff hsym).mpr ?_
    rw [List.pairwise_append]
    refine ⟨h1.filter _, h2, ?_⟩
    intro a ha b hb
    have hpa := (List.mem_filter.mp ha).2
    simp only [Bool.not_eq_true', decide_eq_false_iff_not] at hpa
    intro hEq
    exact hpa (hEq ▸ List.mem_map_of_mem (·.date) hb)

/-- Claim C10, counterexample: the source's sort guarantees only a
date-sorted permutation (pandas' default quicksort is not stable), and
idempotence fails for a compliant realization — `revSort` satisfies
`SortSpec`, yet re-merging the merged dataset of the two same-date
records rDup1, rDup2 swaps them instead of returning it unchanged. -/
theorem C10_counterexample :
    SortSpec revSort ∧
    merge_with revSort (merge_with revSort [] [rDup1, rDup2] []) [] [] ≠
      merge_with revSort [] [rDup1, rDup2] [] := by
  exact ⟨sortSpec_revSort, by decide⟩

/-- Claim C10, amended: for every sort realization satisfying what
`sort_values("日期")` guarantees (a date-sorted permutation, the tie
order being unspecified), re-merging the merged dataset with empty
harvested records and empty overrides yields a date-sorted permutation
of it, and yields it exactly whenever the concatenated
existing-plus-harvested records and the overrides are each unique by
date, so that the merged dataset carries no duplicate date whose rows a
re-sort could permute. -/
theorem C10_theorem :
    (∀ sort : List Row → List Row, SortSpec sort → ∀ E H O : List Row,
      List.Perm (merge_with sort (merge_with sort E H O) [] [])
        (merge_with sort E H O) ∧
      List.Sorted rowLe (merge_with sort (merge_with sort E H O) [] [])) ∧
    (∀ sort : List Row → List Row, SortSpec sort → ∀ E H O : List Row,
      uniqueByDate (E ++ H) → uniqueByDate O →
      merge_with sort (merge_with sort E H O) [] [] = merge_with sort E H O) := by
  constructor
  · intro sort hs E H O
    rw [merge_with_nil]
    exact ⟨(hs _).1, (hs _).2⟩
  · intro sort hs E H O h1 h2
    rw [merge_with_nil]
    have hsorted : List.Sorted rowLe (merge_with sort E H O) := by
      simp only [merge_with, apply_manual_gap_with]
      by_cases hO : O.isEmpty = true
      · rw [if_pos hO]; exact (hs _).2
      · rw [if_neg hO]; exact (hs _).2
    exact eq_of_perm_sorted_unique (hs _).1 (hs _).2 hsorted
      (uniqueByDate_merge_with sort hs E H O h1 h2)

/-- Witness for C10: exact idempotence at the stable realization and
concrete unique-by-date inputs. -/
theorem C10_witness :
    merge_with sortByDate (merge_with sortByDate [rowA] [rowC] [gapD]) [] [] =
      merge_with sortByDate [rowA] [rowC] [gapD] :=
  C10_theorem.2 sortByDate sortSpec_sortByDate [rowA] [rowC] [gapD]
    (by decide) (by decide)

/-! ### Claims C3, C5, C6, C7: the crawl -/

/-- Claim C3, counterexample: with a site whose page 1 is reachable but
has zero keyword-matching entries while page 2 has a matching entry, the
full crawl requests only page 1 and stops — a single zero-match page
terminates the crawl even though the next page is non-empty. -/
theorem C3_counterexample :
    crawl_list_page siteA 1 = [] ∧ crawl_list_page siteA 2 ≠ [] ∧
    (run_full_harvest siteA).map (·.requested) = some [1] := by
  exact ⟨by decide, by decide, by decide⟩

/-- Claim C3, amended: the full crawl stops immediately at the first
page with zero keyword-matching entries (siteA: pages requested = [1]);
the streak threshold 2 governs pages with entries but no unseen url —
two consecutive such pages stop the crawl without a further page being
requested (siteB: pages requested = [1, 2, 3] although page 4 is
non-empty), while a single such page followed by a page with a fresh url
does not stop it (siteC: pages requested = [1, 2, 3, 4]). -/
theorem C3_theorem :
    (run_full_harvest siteA).map (·.requested) = some [1] ∧
    (crawl_list_page siteB 4 ≠ [] ∧
      (run_full_harvest siteB).map (·.requested) = some [1, 2, 3]) ∧
    (run_full_harvest siteC).map (·.requested) = some [1, 2, 3, 4] := by
  exact ⟨by decide, ⟨by decide, by decide⟩, by decide⟩

/-- Claim C5, counterexample: for a site whose single matching entry
links to a detail page without a `div.maincontent`, the harvested batch
of the full run contains a record whose body is the empty string — the
entry is not dropped. -/
theorem C5_counterexample :
    (run_full_harvest site5).map (fun st => st.rows.map (·.content)) =
      some [""] := by
  decide

/-- Claim C5, amended: extraction of a detail page without the
`maincontent` container returns the empty string, never a null miss,
and the full run still records the entry, with its title, an empty body
and its url. -/
theorem C5_theorem :
    extract_maincontent_text ⟨none⟩ = "" ∧
    (run_full_harvest site5).map (·.rows) =
      some [⟨"2025-12-01", "114.12.01中共解放軍軍機", "", "http://x/a1"⟩] := by
  exact ⟨rfl, by decide⟩

/-- Claim C6, counterexample: with a site whose page 1 fetch fails at
the transport level while page 2 would have data, the full crawl
requests only page 1 and stops — the failure is not skipped over. -/
theorem C6_counterexample :
    site6.listPage 1 = none ∧ site6.listPage 2 ≠ none ∧
    (run_full_harvest site6).map (·.requested) = some [1] := by
  refine ⟨rfl, by decide, by decide⟩

/-- Claim C6, amended: a listing-page transport failure after all
retries is converted into an empty entry list (treated as "no data"),
and the full-crawl loop thereupon terminates at that very page — failed
pages are indistinguishable from genuinely empty pages and are not
recorded for continuation. -/
theorem C6_theorem :
    (∀ (site : Site) (p : Nat),
      site.listPage p = none → crawl_list_page site p = []) ∧
    (∀ (site : Site) (fuel : Nat) (st : FullState),
      site.listPage st.page = none →
      runFullLoop site (fuel + 1) st =
        some { st with requested := st.requested ++ [st.page] }) := by
  constructor
  · intro site p h
    simp [crawl_list_page, h]
  · intro site fuel st h
    simp [runFullLoop, crawl_list_page, h]

/-- Witness for C6: the amended statement at `site6` and the initial
state of `run_full`. -/
theorem C6_witness :
    crawl_list_page site6 1 = [] ∧
    runFullLoop site6 1001 initState = some ⟨[], [], 1, 0, [1]⟩ := by
  exact ⟨C6_theorem.1 site6 1 rfl, C6_theorem.2 site6 1000 initState rfl⟩

/-- Claim C7, counterexample: a full run over a site whose single
matching entry carries the Minguo date 114.02.30 — not a real calendar
date — aborts with an uncaught `ValueError`: no dataset at all is
produced, rather than the record being excluded and the run completing. -/
theorem C7_counterexample : run_full site7 [] = none := by
  decide

/-- Claim C7, amended: an unparseable date is fatal to the enclosing
operation, not only to its record — the harvesting loop of `run_full`
aborts on it, one bad override date fails the whole date-column
normalization, and loading the override file with such a row fails
rather than excluding the row. -/
theorem C7_theorem :
    run_full_harvest site7 = none ∧
    normalize_date_column ["2024-01-01", "114/13/01"] = none ∧
    load_manual_gap [gapBad] = none := by
  exact ⟨by decide, by decide, by decide⟩

/-- Commutation of end-stripping with a character map that preserves the
stripped class. -/
theorem stripEnds_map (p : Char → Bool) (f : Char → Char) (l : List Char)
    (hpf : ∀ c, p (f c) = p c) :
    stripEnds p (l.map f) = (stripEnds p l).map f := by
  unfold stripEnds
  rw [List.dropWhile_map, show p ∘ f = p from funext hpf,
      ← List.map_reverse, List.dropWhile_map, show p ∘ f = p from funext hpf,
      ← List.map_reverse]

/-! ### Claims C8, C9: the DateNormalizer -/

/-- Claim C8, counterexample: "1899-12-31" is a three-component date
string whose first component 1899 lies below 1911, yet
`normalize_date_to_iso` returns it unchanged — the strict
`%Y-%m-%d` fast path bypasses the era adjustment, so 1911 is not added. -/
theorem C8_counterexample :
    normalize_date_to_iso "1899-12-31".toList = some "1899-12-31".toList ∧
    "1899-12-31".toList ≠ isoStr (eraAdjust 1899) 12 31 := by
  exact ⟨by decide, by decide⟩

/-- Claim C8, amended: normalize("111.11.08") = "2022-11-08",
normalize("2025/2/3") = "2025-02-03", and normalize("13/02/30") fails;
for every slash-separated three-numeric-component date string that does
not already match the strict zero-padded `%Y-%m-%d` form, a first
component below 1911 gets 1911 added and the resulting triple is
rendered `YYYY-MM-DD` exactly when it is a real `datetime` date, failing
otherwise; an input matching the strict ISO form is returned as-is, even
when its year is below 1911. -/
theorem C8_theorem :
    normalize_date_to_iso "111.11.08".toList = some "2022-11-08".toList ∧
    normalize_date_to_iso "2025/2/3".toList = some "2025-02-03".toList ∧
    normalize_date_to_iso "13/02/30".toList = none ∧
    ∀ ys ms ds : List Char, ys ≠ [] → ms ≠ [] → ds ≠ [] →
      (∀ c ∈ ys, isDigitCh c = true) → (∀ c ∈ ms, isDigitCh c = true) →
      (∀ c ∈ ds, isDigitCh c = true) →
      normalize_date_to_iso (ys ++ '/' :: (ms ++ '/' :: ds)) =
        (if validDate (eraAdjust (Int.ofNat (decVal ys))) (Int.ofNat (decVal ms))
            (Int.ofNat (decVal ds)) then
          some (isoStr (eraAdjust (Int.ofNat (decVal ys))) (Int.ofNat (decVal ms))
            (Int.ofNat (decVal ds)))
        else none) := by
  exact ⟨by decide, by decide, by decide, normalize_slash_form⟩

/-- Witness for C8: the general clause applied to the components of
"114/2/3", a Minguo date that the era adjustment sends to 2025-02-03. -/
theorem C8_witness :
    normalize_date_to_iso "114/2/3".toList = some "2025-02-03".toList := by
  have h := C8_theorem.2.2.2 ['1', '1', '4'] ['2'] ['3'] (by decide) (by decide)
    (by decide) (by decide) (by decide) (by decide)
  rw [show ("114/2/3".toList : List Char) =
      ['1', '1', '4'] ++ '/' :: (['2'] ++ '/' :: ['3']) from rfl]
  rw [h]
  decide

/-- Claim C9, counterexample: replacing every '-' of "1900-01-01" by '/'
changes the result of normalization — the dashed spelling matches the
strict ISO fast path and stays 1900-01-01, while the slashed spelling is
era-adjusted to 3811-01-01: the separators are not structurally
equivalent. -/
theorem C9_counterexample :
    normalize_date_to_iso "1900-01-01".toList = some "1900-01-01".toList ∧
    replSep '-' '/' "1900-01-01".toList = "1900/01/01".toList ∧
    normalize_date_to_iso "1900/01/01".toList = some "3811-01-01".toList ∧
    ("1900-01-01".toList : List Char) ≠ "3811-01-01".toList := by
  exact ⟨by decide, by decide, by decide, by decide⟩

/-- Claim C9, amended: the separators '.', '/', '-' and the
year/month/day characters are interchangeable whenever neither the
original nor the separator-replaced string matches the strict `%Y-%m-%d`
fast path after trimming — then both are parsed through the same
separator collapsing and give identical results; only a dashed strict
ISO spelling escapes this equivalence. -/
theorem C9_theorem (l : List Char) (c1 c2 : Char)
    (h1 : c1 ∈ SEPS) (h2 : c2 ∈ SEPS)
    (hf1 : strptimeYMD (pyStrip l) = none)
    (hf2 : strptimeYMD (pyStrip (replSep c1 c2 l)) = none) :
    normalize_date_to_iso (replSep c1 c2 l) = normalize_date_to_iso l := by
  have hnwsSep : ∀ x ∈ SEPS, isWsCh x = false := by decide
  have hws : ∀ c, isWsCh (if c == c1 then c2 else c) = isWsCh c := by
    intro c
    by_cases hc : c == c1
    · rw [if_pos hc, hnwsSep c2 h2, beq_iff_eq.mp hc, hnwsSep c1 h1]
    · rw [if_neg hc]
  have hstripmap : pyStrip (replSep c1 c2 l) = replSep c1 c2 (pyStrip l) := by
    unfold pyStrip replSep
    exact stripEnds_map isWsCh _ l hws
  have hsubSep : ∀ x ∈ SEPS, (if sepChar x then '/' else x) = '/' := by decide
  have hsep : sepSub (replSep c1 c2 (pyStrip l)) = sepSub (pyStrip l) := by
    unfold sepSub replSep
    rw [List.map_map]
    apply List.map_congr_left
    intro c hc
    show (if sepChar (if c == c1 then c2 else c) then '/'
          else if c == c1 then c2 else c) = if sepChar c then '/' else c
    by_cases hc1 : c == c1
    · rw [if_pos hc1, hsubSep c2 h2, beq_iff_eq.mp hc1, hsubSep c1 h1]
    · rw [if_neg hc1]
  rw [hstripmap] at hf2
  cases hps : pyStrip l with
  | nil =>
    have hps2 : pyStrip (replSep c1 c2 l) = [] := by
      rw [hstripmap, hps]; rfl
    simp [normalize_date_to_iso, hps, hps2]
  | cons a t =>
    have hne1 : (a :: t).isEmpty = false := rfl
    rw [hps] at hf1 hsep hstripmap hf2
    have hne2 : (replSep c1 c2 (a :: t)).isEmpty = false := rfl
    simp only [normalize_date_to_iso, hstripmap, hps, hne1, hne2,
      Bool.false_eq_true, if_false, hf1, hf2, hsep]

/-- Witness for C9: separator equivalence applied to "111.11.08" with
'.' replaced by '/', both spellings missing the fast path. -/
theorem C9_witness :
    normalize_date_to_iso (replSep '.' '/' "111.11.08".toList) =
      normalize_date_to_iso "111.11.08".toList :=
  C9_theorem "111.11.08".toList '.' '/' (by decide) (by decide) (by decide)
    (by decide)


end Mnd
